import Mathlib

/-!
Verification development for the Altified Cloudflare worker
(src/index.js).  The worker intercepts page requests, injects a
client-side translation engine into served HTML, and the injected engine
extracts translatable DOM content, batches it to a remote translation
service, applies the results, and rewrites internal links.

Pure string manipulation (the edge injectors) is modelled over `String`
and `List Char`; the client engine's DOM passes are modelled over
explicit snapshot structures; the page-view state (translation cache,
translated-marker set) is passed explicitly.
-/

/-! ### Elementary string machinery

JavaScript string primitives used by the worker (`includes`,
`startsWith`, `replace` with a plain-string pattern, `trim`,
`substring`) modelled over `List Char`. -/

/-- Models JS `s.startsWith(pat)`: `pat` is a leading segment of `s`
(first argument is the pattern). -/
def begWith : List Char → List Char → Bool
  | [], _ => true
  | _ :: _, [] => false
  | p :: ps, c :: cs => p == c && begWith ps cs

/-- Models JS `s.includes(pat)`: `pat` occurs contiguously inside `s`. -/
def hasSub (pat : List Char) : List Char → Bool
  | [] => pat.isEmpty
  | c :: cs => begWith pat (c :: cs) || hasSub pat cs

/-- Models JS `s.replace(pat, rep)` for a plain-string pattern: replaces
the first (leftmost) occurrence of `pat` by `rep`; `s` is returned
unchanged when `pat` does not occur. -/
def repFirst (pat rep : List Char) : List Char → List Char
  | [] => []
  | c :: cs =>
    if begWith pat (c :: cs) then rep ++ (c :: cs).drop pat.length
    else c :: repFirst pat rep cs

/-- Splits a list at its first `>` character: the segment before it and
the remainder after it (`none` when no `>` occurs).  Used to model the
regex `<head[^>]*>`. -/
def findGt : List Char → Option (List Char × List Char)
  | [] => none
  | c :: cs =>
    if c == '>' then some ([], cs)
    else
      match findGt cs with
      | some (a, b) => some (c :: a, b)
      | none => none

/-- The literal `<head` that opens the tags matched by `<head[^>]*>`. -/
def hdOpen : List Char := "<head".data

/-- Models the regex replacement
`html.replace(/<head[^>]*>/, m => m + script)`: inserts `script` right
after the first (leftmost) tag that starts with `<head` and runs to the
next `>`. -/
def headInj (script : List Char) : List Char → List Char
  | [] => []
  | c :: cs =>
    if begWith hdOpen (c :: cs) then
      match findGt ((c :: cs).drop hdOpen.length) with
      | some (mid, rest) => hdOpen ++ (mid ++ ('>' :: (script ++ rest)))
      | none => c :: headInj script cs
    else c :: headInj script cs

/-- Guarded string transformation: every edge injector first checks for
its own marker substring (JS `html.includes(marker)`) and is a no-op
when it is found, otherwise applies the underlying rewrite. -/
def guardApply (marker : String) (f : List Char → List Char) (html : String) : String :=
  if hasSub marker.data html.data then html else String.mk (f html.data)

/-- Models JS `s.substring(n)`. -/
def sdrop (s : String) (n : Nat) : String := String.mk (s.data.drop n)

/-- The whitespace test used to model JS `trim`. -/
def isWs (c : Char) : Bool := c == ' ' || c == '\n' || c == '\t' || c == '\r'

/-- Models JS `s.trim()` (over the common whitespace characters). -/
def strim (s : String) : String :=
  String.mk (((s.data.dropWhile isWs).reverse.dropWhile isWs).reverse)

/-- Membership in the translated-marker set (`translatedNodes.has`),
with DOM node identity modelled by a numeric id. -/
def memN (x : Nat) : List Nat → Bool
  | [] => false
  | y :: ys => x == y || memN x ys

/-- Lookup in the page-view translation cache (`translationCache.get`),
modelled as an association list with at most one binding per key. -/
def cacheGet : List (String × String) → String → Option String
  | [], _ => none
  | (k, v) :: ps, t => if k = t then some v else cacheGet ps t

/-- Models `translationCache.has(t)`. -/
def cacheHas (c : List (String × String)) (t : String) : Bool := (cacheGet c t).isSome

/-- Models `translationCache.set(k, v)` (overwrite the binding when
present, append otherwise). -/
def cacheSet : List (String × String) → String → String → List (String × String)
  | [], k, v => [(k, v)]
  | (k0, v0) :: ps, k, v => if k0 = k then (k0, v) :: ps else (k0, v0) :: cacheSet ps k v

/-- Models `el.getAttribute(a)` over the element's attribute list
(`none` for an absent attribute); also used for header lookup. -/
def getAttr : List (String × String) → String → Option String
  | [], _ => none
  | (k, v) :: ps, a => if k = a then some v else getAttr ps a

/-- Models JS `s.split('/')` over the character list: splitting on the
separator `/`, keeping empty segments (as JS does). -/
def splitSlash : List Char → List (List Char)
  | [] => [[]]
  | c :: cs =>
    if c == '/' then [] :: splitSlash cs
    else
      match splitSlash cs with
      | [] => [[c]]
      | x :: xs => (c :: x) :: xs

/-- Models JS `s.toUpperCase()` for the ASCII language codes involved. -/
def jsToUpper (s : String) : String := String.mk (s.data.map Char.toUpper)

/-! ### Edge orchestrator: configuration and injectors -/

/-- ProjectConfig as returned by the plan-status collaborator; either
field may be absent in the JSON (`none`). -/
structure ProjectConfig where
  default_language : Option String
  target_languages : Option (List String)
deriving DecidableEq

/-- Models a JS `x || d` fallback for a possibly-absent,
possibly-empty string field. -/
def orDefault (o : Option String) (d : String) : String :=
  match o with
  | some s => if s = "" then d else s
  | none => d

/-- Models `x || []` for a possibly-absent list field. -/
def orNilL (o : Option (List String)) : List String :=
  match o with
  | some l => l
  | none => []

/-- Head chunk of the auto-translation bootstrap markup (style block
plus the opening of the engine script, up to the first interpolation).
The client engine's JS body is elided in the string constants — its
behaviour is embedded as the Lean functions below — because the
string-level claims depend only on the literal markup surrounding the
interpolations, in particular the marker id `__ALTIFIED_AUTO_TRANSLATE__`. -/
def autoScriptPre : String :=
  "\n<style id=\"__ALTIFIED_BLUR__\">\n  html ... blur(8px) ...\n</style>\n\n<script id=\"__ALTIFIED_AUTO_TRANSLATE__\">\n(function() \x7b\n  window.__ALTIFIED_LANG__ = \x27"

/-- Markup between the `lang` and `apiKey` interpolations of the
bootstrap script. -/
def autoScriptMid : String := "\x27;\n  window.__ALTIFIED_API_KEY__ = \x27"

/-- Tail of the bootstrap markup (the client engine body, elided). -/
def autoScriptPost : String :=
  "\x27;\n  ... client translation engine, modelled below ...\n\x7d)();\n</script>\n"

/-- The full injected bootstrap markup (template literal `script` in
`injectAutoTranslation`, src/index.js:297-771). -/
def autoTranslateScript (lang apiKey : String) : String :=
  autoScriptPre ++ lang ++ autoScriptMid ++ apiKey ++ autoScriptPost

/-- Models `injectAutoTranslation` (src/index.js:294-774): no-op when
the marker `__ALTIFIED_AUTO_TRANSLATE__` is already present, otherwise
replaces the first `</head>` by the bootstrap markup followed by
`</head>`. -/
def injectAutoTranslation (html lang apiKey : String) : String :=
  guardApply "__ALTIFIED_AUTO_TRANSLATE__"
    (repFirst "</head>".data (autoTranslateScript lang apiKey ++ "\n</head>").data) html

/-- The language-context script (template literal in
`injectLanguageContext`). -/
def contextScript (lang : String) : String :=
  "\n<script id=\"__ALTIFIED_CONTEXT__\">\n  window.__ALTIFIED_LANG__ = \x27" ++ lang ++
    "\x27;\n  document.documentElement.lang = \x27" ++ lang ++ "\x27;\n</script>\n"

/-- Models `injectLanguageContext` (src/index.js:776-787): no-op when
`__ALTIFIED_CONTEXT__` is present, otherwise inserts the context script
right after the first opening head tag (regex `<head[^>]*>`). -/
def injectLanguageContext (html lang : String) : String :=
  guardApply "__ALTIFIED_CONTEXT__" (headInj (contextScript lang).data) html

/-- Models `JSON.stringify` of a list of plain language-code strings. -/
def jsonArr (l : List String) : String :=
  "[" ++ String.intercalate "," (l.map (fun s => "\"" ++ s ++ "\"")) ++ "]"

/-- Head chunk of the auto-language-detection script (session guard and
browser-language logic elided; see spec section 4.4). -/
def detectScriptPre : String :=
  "\n<script id=\"__ALTIFIED_AUTO_LANG_DETECT__\">\n(function() \x7b\n  ... session guard, browser-language logic ...\n  var targetLanguages = "

/-- Markup between the two interpolations of the detection script. -/
def detectScriptMid : String := ";\n  var defaultLanguage = \x27"

/-- Tail of the detection script (navigation logic elided). -/
def detectScriptPost : String := "\x27;\n  ... navigation logic ...\n\x7d)();\n</script>\n"

/-- Models `injectAutoLanguageDetection` (src/index.js:248-287). -/
def injectAutoLanguageDetection (html : String) (projectConfig : ProjectConfig) : String :=
  guardApply "__ALTIFIED_AUTO_LANG_DETECT__"
    (headInj (detectScriptPre ++ jsonArr (orNilL projectConfig.target_languages) ++
      detectScriptMid ++ orDefault projectConfig.default_language "en" ++ detectScriptPost).data) html

/-- One `<link rel="alternate">` element for a target language
(loop body of `addHreflangLinks`, src/index.js:800-803). -/
def hreflangLink (origin pathname lang : String) : String :=
  "\n<link rel=\"alternate\" hreflang=\"" ++ lang ++ "\" href=\"" ++
    origin ++ "/" ++ lang ++ pathname ++ "\" />"

/-- The hreflang alternate-link block built by `addHreflangLinks`
(src/index.js:796-807): default language, each target language, then
`x-default`. -/
def hreflangTags (pathname : String) (projectConfig : ProjectConfig) (domain : String) : String :=
  let origin := domain
  let defaultLang := orDefault projectConfig.default_language "en"
  let targetLangs := orNilL projectConfig.target_languages
  let base := "\n<link rel=\"alternate\" hreflang=\"" ++ defaultLang ++ "\" href=\"" ++
    origin ++ pathname ++ "\" />\n"
  let withTargets := targetLangs.foldl (fun acc lang => acc ++ hreflangLink origin pathname lang) base
  withTargets ++ "\n<link rel=\"alternate\" hreflang=\"x-default\" href=\"" ++
    origin ++ pathname ++ "\" />\n"

/-- Models `addHreflangLinks` (src/index.js:789-810): no-op when any
`hreflang=` substring is already present, otherwise inserts the
alternate links before the first `</head>`. -/
def addHreflangLinks (html pathname : String) (projectConfig : ProjectConfig) (domain : String) : String :=
  guardApply "hreflang="
    (repFirst "</head>".data (hreflangTags pathname projectConfig domain ++ "\n</head>").data) html

/-- Models the `getLanguageName` fallback of `injectLanguageSwitcher`:
display name from the language map, else the upper-cased code. -/
def getLanguageName (languageNames : List (String × String)) (code : String) : String :=
  match getAttr languageNames code with
  | some n => if n = "" then jsToUpper code else n
  | none => jsToUpper code

/-- The `<option>` markup for one language code. -/
def langOption (languageNames : List (String × String)) (code : String) : String :=
  "<option value=\"" ++ code ++ "\">" ++ getLanguageName languageNames code ++ "</option>"

/-- Models `languageOptions` in `injectLanguageSwitcher`
(src/index.js:822-825): an option for the default language followed by
one option per target language, joined with no separator. -/
def languageOptions (projectConfig : ProjectConfig) (languageNames : List (String × String)) : String :=
  String.join
    ((orDefault projectConfig.default_language "en" :: orNilL projectConfig.target_languages).map
      (langOption languageNames))

/-- Leading switcher markup: style block, the marked `div`, the select
and its fixed placeholder option (CSS bodies elided). -/
def switcherPre : String :=
  "\n<style>\n.altified-lang-switcher \x7b position: fixed; ... \x7d\n.altified-lang-switcher select \x7b ... \x7d\n</style>\n\n<div class=\"altified-lang-switcher\">\n  <select id=\"altified-lang-select\">\n    <option value=\"\">🌐 Language</option>\n    "

/-- Markup between the options and the `defaultLang` interpolation of
the switcher's change-handler script (handler body elided). -/
def switcherMid : String :=
  "\n  </select>\n</div>\n\n<script>\n(function () \x7b\n  ... change handler: navigate to the chosen locale path ...\n  var defaultLang = \x27"

/-- Tail of the switcher markup. -/
def switcherPost : String := "\x27;\n  ...\n\x7d)();\n</script>\n"

/-- The full switcher markup (template literal `switcher` in
`injectLanguageSwitcher`, src/index.js:827-882). -/
def switcherHtml (projectConfig : ProjectConfig) (languageNames : List (String × String)) : String :=
  switcherPre ++ languageOptions projectConfig languageNames ++ switcherMid ++
    orDefault projectConfig.default_language "en" ++ switcherPost

/-- Models `injectLanguageSwitcher` (src/index.js:812-885): no-op when
the marker `altified-lang-switcher` is present, otherwise inserts the
switcher before the first `</body>`. -/
def injectLanguageSwitcher (html : String) (projectConfig : ProjectConfig)
    (languageNames : List (String × String)) : String :=
  guardApply "altified-lang-switcher"
    (repFirst "</body>".data (switcherHtml projectConfig languageNames ++ "\n</body>").data) html

/-! ### Edge orchestrator: request pipelines -/

/-- HTTP response model: status, `ok` flag, header list, body text. -/
structure WResponse where
  status : Nat
  ok : Bool
  headers : List (String × String)
  body : String
deriving DecidableEq

/-- Models `headers.get(k)` (with `''` fallbacks applied at use sites). -/
def getHeader (hs : List (String × String)) (k : String) : Option String := getAttr hs k

/-- Models `headers.set(k, v)`. -/
def setHeader (hs : List (String × String)) (k v : String) : List (String × String) :=
  cacheSet hs k v

/-- Models the cache-miss path of `handleTranslatedRequest`
(src/index.js:177-211) as a function of the origin response: non-OK and
non-HTML responses pass through unchanged; an HTML body receives the
four injections and the response gains `Content-Language` and
`Cache-Control` headers. -/
def handleTranslatedCore (origin : WResponse) (lang originalPath apiKey : String)
    (projectConfig : ProjectConfig) (languageNames : List (String × String))
    (domain : String) : WResponse :=
  if origin.ok = false then origin
  else
    let contentType := (getHeader origin.headers "Content-Type").getD ""
    if hasSub "html".data contentType.data = false then origin
    else
      let pathname := if originalPath = "" then "/" else originalPath
      let h1 := injectAutoTranslation origin.body lang apiKey
      let h2 := injectLanguageContext h1 lang
      let h3 := addHreflangLinks h2 pathname projectConfig domain
      let h4 := injectLanguageSwitcher h3 projectConfig languageNames
      { status := origin.status, ok := origin.ok,
        headers := setHeader (setHeader origin.headers "Content-Language" lang)
          "Cache-Control" "public, max-age=3600",
        body := h4 }

/-- Models `handleDefaultLanguagePage` (src/index.js:217-242): only the
Content-Type is inspected (the source performs no `ok` check); HTML
responses get the auto-detect script and the switcher injected. -/
def handleDefaultCore (origin : WResponse) (projectConfig : ProjectConfig)
    (languageNames : List (String × String)) : WResponse :=
  let contentType := (getHeader origin.headers "Content-Type").getD ""
  if hasSub "html".data contentType.data = false then origin
  else
    { origin with
      body := injectLanguageSwitcher (injectAutoLanguageDetection origin.body projectConfig)
        projectConfig languageNames }

/-- Models the routing step of the top-level fetch handler
(src/index.js:37-48): split the path on `/`, drop empty segments; when
the first segment is a configured target language, return it together
with the stripped canonical path. -/
def routeDecision (projectConfig : ProjectConfig) (pathname : String) : Option (String × String) :=
  let enabledLanguages := orNilL projectConfig.target_languages
  let parts := ((splitSlash pathname.data).map String.mk).filter (fun s => s ≠ "")
  match parts with
  | [] => none
  | first :: rest =>
    if enabledLanguages.contains first then some (first, "/" ++ String.intercalate "/" rest)
    else none

/-! ### Client translation engine: DOM snapshot model -/

/-- Snapshot of a text node's parent element: tag name, whether some
ancestor carries `translate="no"` (the result of `parent.closest`), and
the top of its bounding rect at the pass's layout snapshot. -/
structure TParent where
  tag : String
  noTranslate : Bool
  rectTop : Int
deriving DecidableEq

/-- Snapshot of a DOM text node: identity, current value, parent element
info (`none` when the node has no parent element). -/
structure TextNode where
  id : Nat
  nodeValue : String
  parent : Option TParent
deriving DecidableEq

/-- Snapshot of an element: identity, tag name, attribute list,
bounding-rect top. -/
structure Element where
  id : Nat
  tag : String
  attrs : List (String × String)
  rectTop : Int
deriving DecidableEq

/-- An attribute-translation candidate as pushed by
`collectAttributeNodes`: the element, the attribute name (field
`attribute` in the source; `attribute` is a Lean keyword, hence
`attrName`), and the trimmed attribute value. -/
structure AttrCand where
  element : Element
  attrName : String
  text : String
deriving DecidableEq

/-- A subtree root handed to the extraction functions: its text nodes
and elements in document order, and whether the root is
`document.head`. -/
structure Root where
  texts : List TextNode
  elements : List Element
  isHead : Bool
deriving DecidableEq

/-- The parent tags whose text children are never candidates. -/
def skipParentTags : List String := ["SCRIPT", "STYLE", "NOSCRIPT", "IFRAME", "CODE", "PRE"]

/-- Models `collectTextNodes` (src/index.js:523-553): walk the text
nodes in document order; skip nodes already in the translated-marker
set, whitespace-only and parentless nodes, nodes under a
`translate="no"` ancestor, nodes whose parent is a
script/style/noscript/iframe/code/pre element, and — when the root is
`document.head` — any node whose parent is not a `title` element. -/
def collectTextNodes (root : Root) (translatedNodes : List Nat) : List TextNode :=
  root.texts.filter (fun n =>
    !memN n.id translatedNodes &&
    match n.parent with
    | none => false
    | some p =>
      strim n.nodeValue != "" &&
      !p.noTranslate &&
      !skipParentTags.contains p.tag &&
      (if root.isHead then p.tag == "TITLE" else true))

/-- The standard translatable attributes. -/
def stdAttrs : List String := ["alt", "title", "placeholder", "aria-label"]

/-- True when the element matches the selector
`[alt], [title], [placeholder], [aria-label]`. -/
def hasStdAttr (el : Element) : Bool :=
  stdAttrs.any (fun a => (getAttr el.attrs a).isSome)

/-- One candidate per present, non-blank standard attribute of an
unmarked element (inner loop of `collectAttributeNodes`,
src/index.js:561-567). -/
def stdAttrCands (translatedNodes : List Nat) (el : Element) : List AttrCand :=
  stdAttrs.filterMap (fun attr =>
    match getAttr el.attrs attr with
    | some val =>
      if val != "" && strim val != "" && !memN el.id translatedNodes then
        some { element := el, attrName := attr, text := strim val }
      else none
    | none => none)

/-- The meta selectors translated inside `document.head`, as
(attribute, value) pairs; `og:site_name` and `author` are excluded by
design. -/
def headMetaSelectors : List (String × String) :=
  [("name", "title"), ("name", "description"), ("name", "keywords"),
   ("property", "og:title"), ("property", "og:description"),
   ("name", "twitter:title"), ("name", "twitter:description")]

/-- Models `root.querySelector(sel)`: the first element in document
order satisfying the predicate. -/
def findEl (p : Element → Bool) : List Element → Option Element
  | [] => none
  | e :: es => if p e then some e else findEl p es

/-- Models one `root.querySelector('meta[attr="value"]')` head-meta
block of `collectAttributeNodes` (src/index.js:571-633). -/
def headMetaCand (root : Root) (translatedNodes : List Nat) (sel : String × String) : List AttrCand :=
  match findEl (fun e => e.tag == "META" && getAttr e.attrs sel.1 == some sel.2) root.elements with
  | some el =>
    match getAttr el.attrs "content" with
    | some content =>
      if content != "" && strim content != "" && !memN el.id translatedNodes then
        [{ element := el, attrName := "content", text := strim content }]
      else []
    | none => []
  | none => []

/-- Models `collectAttributeNodes` (src/index.js:555-640). -/
def collectAttributeNodes (root : Root) (translatedNodes : List Nat) : List AttrCand :=
  let base := (root.elements.filter hasStdAttr).flatMap (stdAttrCands translatedNodes)
  if root.isHead then base ++ headMetaSelectors.flatMap (headMetaCand root translatedNodes)
  else base

/-- Models the above-fold text filter of `translateVisibleContent`
(src/index.js:371-378): keep candidates whose parent's rect top is
within `viewportHeight + 200`. -/
def visibleTextNodes (root : Root) (translatedNodes : List Nat) (viewportHeight : Int) :
    List TextNode :=
  (collectTextNodes root translatedNodes).filter (fun n =>
    match n.parent with
    | none => false
    | some p => decide (p.rectTop < viewportHeight + 200))

/-- Models the above-fold attribute filter (src/index.js:380-383). -/
def visibleAttrNodes (root : Root) (translatedNodes : List Nat) (viewportHeight : Int) :
    List AttrCand :=
  (collectAttributeNodes root translatedNodes).filter (fun a =>
    decide (a.element.rectTop < viewportHeight + 200))

/-- Models the below-fold text filter of `translateBelowFoldContent`
(src/index.js:415-422). -/
def belowFoldTextNodes (root : Root) (translatedNodes : List Nat) (viewportHeight : Int) :
    List TextNode :=
  (collectTextNodes root translatedNodes).filter (fun n =>
    match n.parent with
    | none => false
    | some p => decide (viewportHeight + 200 ≤ p.rectTop))

/-- Models the below-fold attribute filter (src/index.js:424-427). -/
def belowFoldAttrNodes (root : Root) (translatedNodes : List Nat) (viewportHeight : Int) :
    List AttrCand :=
  (collectAttributeNodes root translatedNodes).filter (fun a =>
    decide (viewportHeight + 200 ≤ a.element.rectTop))

/-! ### Client translation engine: batching, cache and apply -/

/-- The per-pass batch filter of `translateTexts` (src/index.js:643):
keep a candidate string unless the cache already maps it to something
other than itself. -/
def toTranslate (translationCache : List (String × String)) (texts : List String) : List String :=
  texts.filter (fun t =>
    !cacheHas translationCache t || cacheGet translationCache t == some t)

/-- The batch POST decision of `translateTexts` (src/index.js:642-656):
`none` when nothing is left to translate (no request is made), otherwise
the `texts` array of the request body. -/
def translateTextsRequest (translationCache : List (String × String)) (texts : List String) :
    Option (List String) :=
  let toT := toTranslate translationCache texts
  if toT.isEmpty then none else some toT

/-- One entry of the collaborator's `translations` response array;
either field may be absent. -/
structure TEntry where
  original : Option String
  translated : Option String
deriving DecidableEq

/-- Models the cache-merge loop of `translateTexts`
(src/index.js:662-668): entries with a present, non-empty `original` and
`translated` are written into the cache; anything else is ignored. -/
def mergeTranslations (translationCache : List (String × String)) (entries : List TEntry) :
    List (String × String) :=
  entries.foldl (fun c e =>
    match e.original, e.translated with
    | some o, some tr => if o != "" && tr != "" then cacheSet c o tr else c
    | _, _ => c) translationCache

/-- The per-text-node apply step (src/index.js:505-511): when the cache
maps the node's trimmed value to a non-empty string different from it,
write the translation into the node and report it as newly marked. -/
def applyText (translationCache : List (String × String)) (n : TextNode) : TextNode × Bool :=
  match cacheGet translationCache (strim n.nodeValue) with
  | some translated =>
    if translated != "" && translated != strim n.nodeValue then
      ({ n with nodeValue := translated }, true)
    else (n, false)
  | none => (n, false)

/-- Models `el.setAttribute(a, v)`. -/
def setAttrEl (el : Element) (a v : String) : Element :=
  { el with attrs := cacheSet el.attrs a v }

/-- The per-attribute apply step (src/index.js:514-520). -/
def applyAttr (translationCache : List (String × String)) (a : AttrCand) : Element × Bool :=
  match cacheGet translationCache a.text with
  | some translated =>
    if translated != "" && translated != a.text then
      (setAttrEl a.element a.attrName translated, true)
    else (a.element, false)
  | none => (a.element, false)

/-- A whole apply pass over the collected text nodes: the updated nodes
and the ids newly added to the translated-marker set. -/
def applyTextPass (translationCache : List (String × String)) (nodes : List TextNode) :
    List TextNode × List Nat :=
  (nodes.map (fun n => (applyText translationCache n).1),
   (nodes.filter (fun n => (applyText translationCache n).2)).map (fun n => n.id))

/-- A whole apply pass over the collected attribute candidates. -/
def applyAttrPass (translationCache : List (String × String)) (cands : List AttrCand) :
    List Element × List Nat :=
  (cands.map (fun a => (applyAttr translationCache a).1),
   (cands.filter (fun a => (applyAttr translationCache a).2)).map (fun a => a.element.id))

/-! ### Client translation engine: link rewriting and observer -/

/-- Convenience wrapper: JS `s.startsWith(pat)` over `String`. -/
def begWithS (s pat : String) : Bool := begWith pat.data s.data

/-- Models the per-link body of `rewriteInternalLinks`
(src/index.js:461-487) as a function from the `href` attribute value to
its rewritten value (an untouched link keeps its value). -/
def rewriteHref (lang href : String) : String :=
  let langP := "/" ++ lang
  if href = "" then href
  else if begWithS href "http://" || begWithS href "https://" then href
  else if begWithS href "#" then href
  else if begWithS href "mailto:" || begWithS href "tel:" then href
  else if begWithS href (langP ++ "/") || href == langP then href
  else if href == "/" then langP
  else if begWithS href "/" then langP ++ href
  else if begWithS href "./" then langP ++ "/" ++ sdrop href 2
  else langP ++ "/" ++ href

/-- Specification predicate for C7: `s` begins with the locale segment
`/lang` (followed by `/`, or the whole string). -/
def hasLangSeg (lang s : List Char) : Bool :=
  begWith ('/' :: (lang ++ ['/'])) s || s == '/' :: lang

/-- Specification predicate for C7: `s` begins with the locale prefix
exactly once (it carries the segment, and the remainder after stripping
it does not carry it again). -/
def langSegOnce (lang s : List Char) : Bool :=
  hasLangSeg lang s && !hasLangSeg lang (s.drop (lang.length + 1))

/-- Specification-side canonical root path of a relative href: the
slash-path the rewrite effectively prefixes ("/" stays "/", "./" is
resolved, a bare relative name gains a leading slash). -/
def pathForm (href : String) : String :=
  if href == "/" then "/"
  else if begWithS href "/" then href
  else if begWithS href "./" then "/" ++ sdrop href 2
  else "/" ++ href

/-- The external-link guards of `rewriteInternalLinks`
(src/index.js:466-468): protocol, fragment, mailto and tel links. -/
def externalHref (href : String) : Bool :=
  begWithS href "http://" || begWithS href "https://" || begWithS href "#" ||
    begWithS href "mailto:" || begWithS href "tel:"

/-- All values stored in a translation cache are non-empty.  This is an
invariant of every reachable cache: the page-view cache starts empty and
`mergeTranslations` is its only writer. -/
def cacheValsOk (translationCache : List (String × String)) : Prop :=
  ∀ p ∈ translationCache, p.2 ≠ ""

/-- DOM node types distinguished by the observer callback. -/
inductive JsNodeType where
  | element
  | text
  | comment
deriving DecidableEq

/-- Snapshot of a DOM node seen by the mutation observer: identity, node
type, and whether `node.closest('[translate="no"]')` finds an opt-out
ancestor. -/
structure DomNode where
  id : Nat
  nodeType : JsNodeType
  noTranslate : Bool
deriving DecidableEq

/-- One `MutationRecord` delivered to the observer callback. -/
structure MutationRecord where
  addedNodes : List DomNode
deriving DecidableEq

/-- Models the `MutationObserver` callback of `startObserver`
(src/index.js:677-697): from a batch of mutations, collect the added
nodes that are element nodes, not already marked translated, and not
under a `translate="no"` ancestor; exactly this list is handed to
`translateNewNodes`. -/
def observerCollect (translatedNodes : List Nat) (mutations : List MutationRecord) : List DomNode :=
  mutations.flatMap (fun m => m.addedNodes.filter (fun n =>
    n.nodeType == JsNodeType.element && !memN n.id translatedNodes && !n.noTranslate))

/-! ### Substring lemmas -/

/-- Data of `String.mk` is the underlying list. -/
theorem sdata_mk (l : List Char) : (String.mk l).data = l := rfl

/-- Rebuilding a string from its data is the identity. -/
theorem smk_data (s : String) : String.mk s.data = s := rfl

/-- A leading segment stays leading after appending on the right. -/
theorem begWith_append_right : ∀ (m s t : List Char), begWith m s = true → begWith m (s ++ t) = true
  | [], _, _, _ => rfl
  | p :: ps, [], _, h => by simp [begWith] at h
  | p :: ps, c :: cs, t, h => by
    simp only [begWith, Bool.and_eq_true, beq_iff_eq] at h
    simp only [List.cons_append, begWith, Bool.and_eq_true, beq_iff_eq]
    exact ⟨h.1, begWith_append_right ps cs t h.2⟩

/-- Every list is a leading segment of itself followed by anything. -/
theorem begWith_refl_append : ∀ (a r : List Char), begWith a (a ++ r) = true
  | [], _ => rfl
  | c :: cs, r => by
    simp only [List.cons_append, begWith, beq_self_eq_true, Bool.true_and]
    exact begWith_refl_append cs r

/-- Cancelling a common leading segment in a `begWith` test. -/
theorem begWith_append_cancel : ∀ (a b c : List Char), begWith (a ++ b) (a ++ c) = begWith b c
  | [], _, _ => rfl
  | x :: xs, b, c => by
    simp only [List.cons_append, begWith, beq_self_eq_true, Bool.true_and]
    exact begWith_append_cancel xs b c

/-- The empty pattern occurs in every list. -/
theorem hasSub_nil_pat : ∀ (s : List Char), hasSub [] s = true
  | [] => rfl
  | _ :: _ => by simp [hasSub, begWith]

/-- An occurrence survives consing a character on the left. -/
theorem hasSub_cons (m r : List Char) (c : Char) (h : hasSub m r = true) :
    hasSub m (c :: r) = true := by
  simp only [hasSub, Bool.or_eq_true]
  exact Or.inr h

/-- An occurrence survives appending on the right. -/
theorem hasSub_append_right : ∀ (m r b : List Char), hasSub m r = true → hasSub m (r ++ b) = true
  | m, [], b, h => by
    simp only [hasSub, List.isEmpty_iff] at h
    subst h
    exact hasSub_nil_pat b
  | m, c :: cs, b, h => by
    simp only [hasSub, Bool.or_eq_true] at h
    simp only [List.cons_append, hasSub, Bool.or_eq_true]
    rcases h with h | h
    · exact Or.inl (by simpa using begWith_append_right m (c :: cs) b h)
    · exact Or.inr (hasSub_append_right m cs b h)

/-- An occurrence survives appending on the left. -/
theorem hasSub_append_left (m : List Char) : ∀ (a x : List Char),
    hasSub m x = true → hasSub m (a ++ x) = true
  | [], _, h => h
  | c :: cs, x, h => by
    simpa using hasSub_cons m (cs ++ x) c (hasSub_append_left m cs x h)

/-- The first-occurrence replacement either leaves the input unchanged
or produces a string that contains every substring of the replacement. -/
theorem repFirst_eq_or_hasSub (m pat rep : List Char) (hm : hasSub m rep = true) (s : List Char) :
    repFirst pat rep s = s ∨ hasSub m (repFirst pat rep s) = true := by
  induction s with
  | nil => exact Or.inl rfl
  | cons c cs ih =>
    by_cases h : begWith pat (c :: cs) = true
    · right
      simp only [repFirst]
      rw [if_pos h]
      exact hasSub_append_right _ _ _ hm
    · simp only [repFirst]
      rw [if_neg h]
      rcases ih with heq | hs
      · exact Or.inl (by rw [heq])
      · exact Or.inr (hasSub_cons _ _ _ hs)

/-- The head-open insertion either leaves the input unchanged or
produces a string that contains every substring of the script. -/
theorem headInj_eq_or_hasSub (m script : List Char) (hm : hasSub m script = true) (s : List Char) :
    headInj script s = s ∨ hasSub m (headInj script s) = true := by
  induction s with
  | nil => exact Or.inl rfl
  | cons c cs ih =>
    by_cases h : begWith hdOpen (c :: cs) = true
    · simp only [headInj]
      rw [if_pos h]
      cases hg : findGt ((c :: cs).drop hdOpen.length) with
      | some pr =>
        obtain ⟨mid, rest⟩ := pr
        right
        show hasSub m (hdOpen ++ (mid ++ ('>' :: (script ++ rest)))) = true
        exact hasSub_append_left m hdOpen _ (hasSub_append_left m mid _
          (hasSub_cons _ _ _ (hasSub_append_right _ _ _ hm)))
      | none =>
        rcases ih with heq | hs
        · exact Or.inl (by show c :: headInj script cs = c :: cs; rw [heq])
        · exact Or.inr (by
            show hasSub m (c :: headInj script cs) = true
            exact hasSub_cons _ _ _ hs)
    · simp only [headInj]
      rw [if_neg h]
      rcases ih with heq | hs
      · exact Or.inl (by rw [heq])
      · exact Or.inr (hasSub_cons _ _ _ hs)

/-- A marker-guarded rewrite whose output (when it rewrites at all)
always contains the marker is idempotent. -/
theorem guardApply_idem (marker : String) (f : List Char → List Char)
    (hf : ∀ s, f s = s ∨ hasSub marker.data (f s) = true) (html : String) :
    guardApply marker f (guardApply marker f html) = guardApply marker f html := by
  by_cases h : hasSub marker.data html.data = true
  · have h1 : guardApply marker f html = html := by
      simp only [guardApply]
      rw [if_pos h]
    rw [h1, h1]
  · have h1 : guardApply marker f html = String.mk (f html.data) := by
      simp only [guardApply]
      rw [if_neg h]
    rcases hf html.data with heq | hs
    · have h2 : String.mk (f html.data) = html := by rw [heq]
      rw [h1, h2]
      exact h1.trans h2
    · have h2 : guardApply marker f (String.mk (f html.data)) = String.mk (f html.data) := by
        simp only [guardApply]
        rw [if_pos hs]
      rw [h1, h2]

/-- Containment of a marker in an accumulating fold over link markup. -/
theorem hasSub_foldl (m : List Char) (g : String → String) (L : List String) :
    ∀ acc : String, hasSub m acc.data = true →
      hasSub m (L.foldl (fun a x => a ++ g x) acc).data = true := by
  induction L with
  | nil => exact fun acc h => h
  | cons x xs ih =>
    intro acc h
    simp only [List.foldl_cons]
    exact ih (acc ++ g x) (by rw [String.data_append]; exact hasSub_append_right _ _ _ h)

/-! ### Marker containment in the injector payloads -/

/-- The bootstrap payload contains its own marker id. -/
theorem marker_in_autoPayload (lang apiKey : String) :
    hasSub "__ALTIFIED_AUTO_TRANSLATE__".data
      (autoTranslateScript lang apiKey ++ "\n</head>").data = true := by
  have h : hasSub "__ALTIFIED_AUTO_TRANSLATE__".data autoScriptPre.data = true := by decide
  simp only [autoTranslateScript, String.data_append, List.append_assoc]
  exact hasSub_append_right _ _ _ h

/-- The context script contains its own marker id. -/
theorem marker_in_contextScript (lang : String) :
    hasSub "__ALTIFIED_CONTEXT__".data (contextScript lang).data = true := by
  have h : hasSub "__ALTIFIED_CONTEXT__".data
      "\n<script id=\"__ALTIFIED_CONTEXT__\">\n  window.__ALTIFIED_LANG__ = \x27".data = true := by
    decide
  simp only [contextScript, String.data_append, List.append_assoc]
  exact hasSub_append_right _ _ _ h

/-- The auto-detection script contains its own marker id. -/
theorem marker_in_detectScript (projectConfig : ProjectConfig) :
    hasSub "__ALTIFIED_AUTO_LANG_DETECT__".data
      (detectScriptPre ++ jsonArr (orNilL projectConfig.target_languages) ++
        detectScriptMid ++ orDefault projectConfig.default_language "en" ++
        detectScriptPost).data = true := by
  have h : hasSub "__ALTIFIED_AUTO_LANG_DETECT__".data detectScriptPre.data = true := by decide
  simp only [String.data_append, List.append_assoc]
  exact hasSub_append_right _ _ _ h

/-- The hreflang block contains the `hreflang=` marker substring. -/
theorem marker_in_hreflangPayload (pathname : String) (projectConfig : ProjectConfig)
    (domain : String) :
    hasSub "hreflang=".data
      (hreflangTags pathname projectConfig domain ++ "\n</head>").data = true := by
  have hbase : hasSub "hreflang=".data
      ("\n<link rel=\"alternate\" hreflang=\"" ++ orDefault projectConfig.default_language "en" ++
        "\" href=\"" ++ domain ++ pathname ++ "\" />\n").data = true := by
    have h : hasSub "hreflang=".data "\n<link rel=\"alternate\" hreflang=\"".data = true := by
      decide
    simp only [String.data_append, List.append_assoc]
    exact hasSub_append_right _ _ _ h
  have hfold := hasSub_foldl "hreflang=".data
    (hreflangLink domain pathname) (orNilL projectConfig.target_languages) _ hbase
  simp only [hreflangTags, String.data_append, List.append_assoc]
  exact hasSub_append_right _ _ _ hfold

/-- The switcher markup contains its own marker class name. -/
theorem marker_in_switcherPayload (projectConfig : ProjectConfig)
    (languageNames : List (String × String)) :
    hasSub "altified-lang-switcher".data
      (switcherHtml projectConfig languageNames ++ "\n</body>").data = true := by
  have h : hasSub "altified-lang-switcher".data switcherPre.data = true := by decide
  simp only [switcherHtml, String.data_append, List.append_assoc]
  exact hasSub_append_right _ _ _ h

/-! ### Further helper lemmas -/

/-- Counting in a filtered list of strings. -/
theorem count_filter_eq (p : String → Bool) (t : String) (l : List String) :
    List.count t (l.filter p) = if p t = true then List.count t l else 0 := by
  induction l with
  | nil => simp
  | cons x xs ih =>
    by_cases hxt : x = t
    · subst hxt
      by_cases hp : p x = true
      · simp [List.filter_cons, hp, List.count_cons, ih]
      · simp [List.filter_cons, hp, List.count_cons, ih]
    · by_cases hp : p x = true
      · simp [List.filter_cons, hp, List.count_cons, hxt, ih]
      · simp [List.filter_cons, hp, List.count_cons, hxt, ih]

/-- Marker-set membership distributes over append. -/
theorem memN_append (x : Nat) : ∀ (a b : List Nat), memN x (a ++ b) = (memN x a || memN x b)
  | [], b => by simp [memN]
  | y :: ys, b => by
    simp [memN, memN_append x ys b, Bool.or_assoc]

/-- Mismatching heads defeat a `begWith` test. -/
theorem begWith_ne_head (p c : Char) (ps cs : List Char) (h : (p == c) = false) :
    begWith (p :: ps) (c :: cs) = false := by
  simp [begWith, h]

/-- Cancelling a shared head and segment in a `begWith` test. -/
theorem begWith_cons_cancel (c : Char) (a b d : List Char) :
    begWith (c :: (a ++ b)) (c :: (a ++ d)) = begWith b d := by
  simp only [begWith, beq_self_eq_true, Bool.true_and]
  exact begWith_append_cancel a b d

/-- A string whose data starts with `/` is none of the external-link
shapes checked by the rewriter. -/
theorem externalHref_slash (r : String) (t : List Char) (ht : r.data = '/' :: t) :
    begWithS r "http://" = false ∧ begWithS r "https://" = false ∧
    begWithS r "#" = false ∧ begWithS r "mailto:" = false ∧ begWithS r "tel:" = false := by
  have h1 : begWith "http://".data ('/' :: t) = false := begWith_ne_head 'h' '/' _ t (by decide)
  have h2 : begWith "https://".data ('/' :: t) = false := begWith_ne_head 'h' '/' _ t (by decide)
  have h3 : begWith "#".data ('/' :: t) = false := begWith_ne_head '#' '/' _ t (by decide)
  have h4 : begWith "mailto:".data ('/' :: t) = false := begWith_ne_head 'm' '/' _ t (by decide)
  have h5 : begWith "tel:".data ('/' :: t) = false := begWith_ne_head 't' '/' _ t (by decide)
  simp only [begWithS, ht]
  exact ⟨h1, h2, h3, h4, h5⟩

/-- Rebuilding equal data gives equal strings. -/
theorem str_eq_of_data (s t : String) (h : s.data = t.data) : s = t := by
  cases s
  cases t
  exact congrArg String.mk h

/-- The empty pattern never carries the locale segment. -/
theorem hasLangSeg_nil (lang : List Char) : hasLangSeg lang [] = false := by
  simp [hasLangSeg, begWith]

/-- A string whose data starts with `/` is non-empty. -/
theorem slash_ne_empty (r : String) (t : List Char) (ht : r.data = '/' :: t) : r ≠ "" := by
  intro h
  rw [h] at ht
  exact List.noConfusion ht

/-- `cacheSet` with a non-empty value preserves the invariant. -/
theorem cacheSet_valsOk (k v : String) (hv : v ≠ "") :
    ∀ (c : List (String × String)), cacheValsOk c → cacheValsOk (cacheSet c k v)
  | [], _ => by
    intro p hp
    simp only [cacheSet, List.mem_singleton] at hp
    rw [hp]
    exact hv
  | (k0, v0) :: ps, hc => by
    intro p hp
    simp only [cacheSet] at hp
    by_cases hk : k0 = k
    · rw [if_pos hk] at hp
      rcases List.mem_cons.mp hp with h | h
      · rw [h]; exact hv
      · exact hc p (List.mem_cons_of_mem _ h)
    · rw [if_neg hk] at hp
      rcases List.mem_cons.mp hp with h | h
      · rw [h]; exact hc (k0, v0) (List.mem_cons_self _ _)
      · exact cacheSet_valsOk k v hv ps (fun q hq => hc q (List.mem_cons_of_mem _ hq)) p h

/-- `mergeTranslations` preserves the cache-value invariant. -/
theorem mergeTranslations_valsOk (entries : List TEntry) :
    ∀ (c : List (String × String)), cacheValsOk c →
      cacheValsOk (mergeTranslations c entries) := by
  induction entries with
  | nil => exact fun c hc => hc
  | cons e es ih =>
    intro c hc
    have hstep : cacheValsOk (match e.original, e.translated with
        | some o, some tr => if (o != "" && tr != "") = true then cacheSet c o tr else c
        | _, _ => c) := by
      cases ho : e.original with
      | none => exact hc
      | some o =>
        cases ht : e.translated with
        | none => exact hc
        | some tr =>
          show cacheValsOk (if (o != "" && tr != "") = true then cacheSet c o tr else c)
          by_cases hne : (o != "" && tr != "") = true
          · rw [if_pos hne]
            have htr : tr ≠ "" := by
              rw [Bool.and_eq_true] at hne
              exact bne_iff_ne.mp hne.2
            exact cacheSet_valsOk o tr htr c hc
          · rw [if_neg hne]
            exact hc
    exact ih _ hstep

/-- A successful cache lookup returns a non-empty value under the
invariant. -/
theorem cacheGet_valsOk (t v : String) :
    ∀ (c : List (String × String)), cacheValsOk c → cacheGet c t = some v → v ≠ ""
  | [], _, h => by simp [cacheGet] at h
  | (k0, v0) :: ps, hc, h => by
    simp only [cacheGet] at h
    by_cases hk : k0 = t
    · rw [if_pos hk] at h
      have := Option.some.inj h
      rw [← this]
      exact hc (k0, v0) (List.mem_cons_self _ _)
    · rw [if_neg hk] at h
      exact cacheGet_valsOk t v ps (fun q hq => hc q (List.mem_cons_of_mem _ hq)) h

/-- Every text node returned by `collectTextNodes` has a parent
element. -/
theorem collectTextNodes_parent_some (root : Root) (translatedNodes : List Nat) (n : TextNode)
    (h : n ∈ collectTextNodes root translatedNodes) : n.parent.isSome = true := by
  have hp := (List.mem_filter.mp h).2
  cases hpar : n.parent with
  | none =>
    rw [Bool.and_eq_true] at hp
    rw [hpar] at hp
    simp at hp
  | some p => rfl

/-- A std-attribute candidate always comes from an unmarked element. -/
theorem stdAttrCands_unmarked (translatedNodes : List Nat) (el : Element) (c : AttrCand)
    (h : c ∈ stdAttrCands translatedNodes el) : memN c.element.id translatedNodes = false := by
  simp only [stdAttrCands, List.mem_filterMap] at h
  obtain ⟨attr, -, hsome⟩ := h
  split at hsome
  · split at hsome
    · rename_i hc
      have hcel := Option.some.inj hsome
      rw [Bool.and_eq_true] at hc
      rw [← hcel]
      simpa using hc.2
    · exact Option.noConfusion hsome
  · exact Option.noConfusion hsome

/-- A head-meta candidate always comes from an unmarked element. -/
theorem headMetaCand_unmarked (root : Root) (translatedNodes : List Nat) (sel : String × String)
    (c : AttrCand) (h : c ∈ headMetaCand root translatedNodes sel) :
    memN c.element.id translatedNodes = false := by
  simp only [headMetaCand] at h
  split at h
  · split at h
    · split at h
      · rename_i hc
        rw [List.mem_singleton] at h
        rw [Bool.and_eq_true] at hc
        rw [h]
        simpa using hc.2
      · exact absurd h (List.not_mem_nil _)
    · exact absurd h (List.not_mem_nil _)
  · exact absurd h (List.not_mem_nil _)

/-! ### Claim theorems -/

/-- C1 counterexample: with an empty cache, the pass candidates
["Hello", "Hello"] — the same visible string occurring in two different
candidates of one pass — produce a POST body whose texts array lists
"Hello" twice, so the batch does not contain that string exactly once. -/
theorem C1_counterexample :
    translateTextsRequest [] ["Hello", "Hello"] = some ["Hello", "Hello"] ∧
    List.count "Hello" ["Hello", "Hello"] = 2 := by
  exact ⟨by decide, by decide⟩

/-- C1 amended: within one translateTexts call, the batch excludes
exactly the strings that the cache maps to something other than
themselves; every other candidate occurs in the POST texts array as
often as it occurs among the pass's candidates — duplicates within one
pass are not deduplicated. -/
theorem C1_batch_count (translationCache : List (String × String)) (texts : List String)
    (t : String) :
    List.count t (toTranslate translationCache texts) =
      if (!cacheHas translationCache t || cacheGet translationCache t == some t) = true
      then List.count t texts else 0 :=
  count_filter_eq _ t texts

/-- C2 counterexample: after the collaborator answers "Hello" → "Hello"
(a no-op translation cached as a self-mapping), a later translateTexts
call over ["Hello"] still sends a request whose texts array contains
"Hello": a self-mapped cache key is resent, contrary to the claim. -/
theorem C2_counterexample :
    translateTextsRequest
      (mergeTranslations [] [{ original := some "Hello", translated := some "Hello" }])
      ["Hello"] = some ["Hello"] := by decide

/-- C2 amended: once a source string is cached with a translation
different from itself it is never again included in a batch sent by
translateTexts; a string cached as a self-mapping stays eligible and is
resent. -/
theorem C2_cached_not_resent (translationCache : List (String × String)) (texts : List String)
    (t v : String) (hget : cacheGet translationCache t = some v) (hne : v ≠ t) :
    t ∉ toTranslate translationCache texts := by
  intro hmem
  have hp := (List.mem_filter.mp hmem).2
  rw [Bool.or_eq_true] at hp
  rcases hp with h1 | h2
  · simp [cacheHas, hget] at h1
  · rw [hget] at h2
    simp at h2
    exact hne h2

/-- C2 witness: "Hello" → "Bonjour" being cached keeps "Hello" out of
every later batch. -/
theorem C2_cached_not_resent_witness :
    "Hello" ∉ toTranslate [("Hello", "Bonjour")] ["Hello", "World"] :=
  C2_cached_not_resent _ _ "Hello" "Bonjour" (by decide) (by decide)

set_option maxRecDepth 10000 in
/-- C3 counterexample: a non-OK (404) origin response whose Content-Type
is text/html is still augmented by the default-page pipeline: the
returned response differs from the origin response, so the claimed
passthrough of non-OK responses fails in handleDefaultLanguagePage. -/
theorem C3_counterexample :
    handleDefaultCore
      { status := 404, ok := false,
        headers := [("Content-Type", "text/html")],
        body := "<html><head></head><body>Not found</body></html>" }
      { default_language := some "en", target_languages := some ["fr", "de"] } [] ≠
      { status := 404, ok := false,
        headers := [("Content-Type", "text/html")],
        body := "<html><head></head><body>Not found</body></html>" } := by decide

/-- C3 amended: the exact passthrough of a non-OK origin response, with
no augmentation attempted, holds in the translated-page pipeline
(handleTranslatedRequest); the default-page pipeline inspects only the
Content-Type, so a non-OK HTML response is still augmented there. -/
theorem C3_translated_nonok_passthrough (origin : WResponse)
    (lang originalPath apiKey : String) (projectConfig : ProjectConfig)
    (languageNames : List (String × String)) (domain : String) (h : origin.ok = false) :
    handleTranslatedCore origin lang originalPath apiKey projectConfig languageNames domain =
      origin := by
  simp only [handleTranslatedCore]
  rw [if_pos h]

/-- C3 witness: a concrete non-OK origin response passes through the
translated-page pipeline unchanged. -/
theorem C3_translated_nonok_passthrough_witness :
    handleTranslatedCore
      { status := 500, ok := false, headers := [("Content-Type", "text/html")],
        body := "<html></html>" }
      "fr" "/about" "key" { default_language := some "en", target_languages := some ["fr"] }
      [] "https://example.com" =
      { status := 500, ok := false, headers := [("Content-Type", "text/html")],
        body := "<html></html>" } :=
  C3_translated_nonok_passthrough _ "fr" "/about" "key" _ [] "https://example.com" rfl

/-- C5: a node or element in the translated-marker set is excluded from
every extraction pass over a subtree containing it: collectTextNodes
never returns a marked text node, and collectAttributeNodes never
returns a candidate whose element is marked. -/
theorem C5_marker_exclusion (root : Root) (translatedNodes : List Nat) :
    (∀ n : TextNode, memN n.id translatedNodes = true →
      n ∉ collectTextNodes root translatedNodes) ∧
    (∀ c : AttrCand, c ∈ collectAttributeNodes root translatedNodes →
      memN c.element.id translatedNodes = false) := by
  constructor
  · intro n hmark hmem
    have hp := (List.mem_filter.mp hmem).2
    rw [Bool.and_eq_true] at hp
    rw [hmark] at hp
    simp at hp
  · intro c hmem
    simp only [collectAttributeNodes] at hmem
    by_cases hh : root.isHead = true
    · rw [if_pos hh] at hmem
      rcases List.mem_append.mp hmem with h | h
      · rcases List.mem_flatMap.mp h with ⟨el, -, hel⟩
        exact stdAttrCands_unmarked translatedNodes el c hel
      · rcases List.mem_flatMap.mp h with ⟨sel, -, hsel⟩
        exact headMetaCand_unmarked root translatedNodes sel c hsel
    · rw [if_neg hh] at hmem
      rcases List.mem_flatMap.mp hmem with ⟨el, -, hel⟩
      exact stdAttrCands_unmarked translatedNodes el c hel

/-- C5 witness: a marked text node is not extracted again. -/
theorem C5_marker_exclusion_witness :
    ({ id := 7, nodeValue := "Hello",
       parent := some { tag := "P", noTranslate := false, rectTop := 0 } } : TextNode) ∉
      collectTextNodes
        { texts := [{ id := 7, nodeValue := "Hello",
                      parent := some { tag := "P", noTranslate := false, rectTop := 0 } }],
          elements := [], isHead := false } [7] :=
  (C5_marker_exclusion _ _).1 _ (by decide)

/-- C6: every edge-side injector (injectAutoTranslation,
injectLanguageContext, addHreflangLinks, injectLanguageSwitcher,
injectAutoLanguageDetection) is idempotent on HTML strings: applying an
injector to its own output yields the same string as applying it once,
for every input and configuration, because each injector is a no-op when
its own marker string is already present. -/
theorem C6_injectors_idempotent (html lang apiKey pathname domain : String)
    (projectConfig : ProjectConfig) (languageNames : List (String × String)) :
    injectAutoTranslation (injectAutoTranslation html lang apiKey) lang apiKey =
      injectAutoTranslation html lang apiKey ∧
    injectLanguageContext (injectLanguageContext html lang) lang =
      injectLanguageContext html lang ∧
    addHreflangLinks (addHreflangLinks html pathname projectConfig domain)
        pathname projectConfig domain =
      addHreflangLinks html pathname projectConfig domain ∧
    injectLanguageSwitcher (injectLanguageSwitcher html projectConfig languageNames)
        projectConfig languageNames =
      injectLanguageSwitcher html projectConfig languageNames ∧
    injectAutoLanguageDetection (injectAutoLanguageDetection html projectConfig) projectConfig =
      injectAutoLanguageDetection html projectConfig := by
  refine ⟨?_, ?_, ?_, ?_, ?_⟩
  · exact guardApply_idem _ _
      (fun s => repFirst_eq_or_hasSub _ _ _ (marker_in_autoPayload lang apiKey) s) html
  · exact guardApply_idem _ _
      (fun s => headInj_eq_or_hasSub _ _ (marker_in_contextScript lang) s) html
  · exact guardApply_idem _ _
      (fun s => repFirst_eq_or_hasSub _ _ _
        (marker_in_hreflangPayload pathname projectConfig domain) s) html
  · exact guardApply_idem _ _
      (fun s => repFirst_eq_or_hasSub _ _ _
        (marker_in_switcherPayload projectConfig languageNames) s) html
  · exact guardApply_idem _ _
      (fun s => headInj_eq_or_hasSub _ _ (marker_in_detectScript projectConfig) s) html

/-- C10: the observer callback enqueues only element nodes: every node
collected from a batch of mutations has nodeType ELEMENT_NODE, so a bare
text node inserted directly into an existing element is never handed to
the incremental extract–translate–apply–rewrite pipeline
(translateNewNodes runs exactly on this collected list). -/
theorem C10_observer_element_only (translatedNodes : List Nat)
    (mutations : List MutationRecord) (n : DomNode)
    (h : n ∈ observerCollect translatedNodes mutations) :
    n.nodeType = JsNodeType.element := by
  simp only [observerCollect, List.mem_flatMap] at h
  obtain ⟨m, -, hmem⟩ := h
  have hp := (List.mem_filter.mp hmem).2
  rw [Bool.and_eq_true, Bool.and_eq_true] at hp
  simpa using hp.1.1

/-- C10 witness: a freshly inserted bare text node is never collected
for incremental translation. -/
theorem C10_observer_element_only_witness :
    ({ id := 3, nodeType := JsNodeType.text, noTranslate := false } : DomNode) ∉
      observerCollect []
        [{ addedNodes := [{ id := 3, nodeType := JsNodeType.text, noTranslate := false }] }] := by
  intro hmem
  have h := C10_observer_element_only [] _ _ hmem
  exact absurd h (by decide)

/-- C8: for a fixed layout snapshot (fixed bounding-rect tops and fixed
viewport height), the candidates selected by translateVisibleContent
(rect top < viewportHeight + 200) and by translateBelowFoldContent
(rect top >= viewportHeight + 200) partition the full extraction: their
concatenation is a permutation of the collectTextNodes and
collectAttributeNodes results, and no candidate is selected by both. -/
theorem C8_fold_partition (root : Root) (translatedNodes : List Nat) (viewportHeight : Int) :
    List.Perm
      (visibleTextNodes root translatedNodes viewportHeight ++
        belowFoldTextNodes root translatedNodes viewportHeight)
      (collectTextNodes root translatedNodes) ∧
    List.Disjoint (visibleTextNodes root translatedNodes viewportHeight)
      (belowFoldTextNodes root translatedNodes viewportHeight) ∧
    List.Perm
      (visibleAttrNodes root translatedNodes viewportHeight ++
        belowFoldAttrNodes root translatedNodes viewportHeight)
      (collectAttributeNodes root translatedNodes) ∧
    List.Disjoint (visibleAttrNodes root translatedNodes viewportHeight)
      (belowFoldAttrNodes root translatedNodes viewportHeight) := by
  have htext : belowFoldTextNodes root translatedNodes viewportHeight =
      (collectTextNodes root translatedNodes).filter (fun n =>
        !(match n.parent with
          | none => false
          | some p => decide (p.rectTop < viewportHeight + 200))) := by
    simp only [belowFoldTextNodes]
    apply List.filter_congr
    intro n hn
    have hs := collectTextNodes_parent_some root translatedNodes n hn
    cases hpar : n.parent with
    | none =>
      rw [hpar] at hs
      exact absurd hs (by simp)
    | some p =>
      simp only [hpar]
      rw [← decide_not]
      exact decide_eq_decide.mpr (by omega)
  have hattr : belowFoldAttrNodes root translatedNodes viewportHeight =
      (collectAttributeNodes root translatedNodes).filter (fun a =>
        !decide (a.element.rectTop < viewportHeight + 200)) := by
    simp only [belowFoldAttrNodes]
    apply List.filter_congr
    intro a ha
    rw [← decide_not]
    exact decide_eq_decide.mpr (by omega)
  refine ⟨?_, ?_, ?_, ?_⟩
  · rw [htext]
    exact List.filter_append_perm _ _
  · intro a h1 h2
    simp only [visibleTextNodes] at h1
    simp only [belowFoldTextNodes] at h2
    have hp1 := (List.mem_filter.mp h1).2
    have hp2 := (List.mem_filter.mp h2).2
    cases hpar : a.parent with
    | none =>
      rw [hpar] at hp1
      simp at hp1
    | some p =>
      rw [hpar] at hp1 hp2
      simp only [decide_eq_true_eq] at hp1 hp2
      omega
  · rw [hattr]
    exact List.filter_append_perm _ _
  · intro a h1 h2
    simp only [visibleAttrNodes] at h1
    simp only [belowFoldAttrNodes] at h2
    have hp1 := (List.mem_filter.mp h1).2
    have hp2 := (List.mem_filter.mp h2).2
    simp only [decide_eq_true_eq] at hp1 hp2
    omega

/-- C4: in every apply phase (the identical apply loops of
translateContent, translateVisibleContent, translateBelowFoldContent and
translateNewNodes), a candidate whose trimmed source string the cache
maps to a value different from itself (cache values are non-empty, the
invariant of every reachable cache) is rewritten to that value and
reported marked, its id joining the pass's newly-marked ids; a candidate
whose string is absent from the cache or mapped to itself is returned
unchanged and unmarked, and such a text node remains an eligible
candidate for a later extraction pass whose new marker ids do not
include its id. -/
theorem C4_apply_phase (translationCache : List (String × String))
    (hvals : cacheValsOk translationCache) (n : TextNode) (a : AttrCand) (tr : String)
    (root : Root) (translatedNodes newIds : List Nat) (nodes : List TextNode) :
    (cacheGet translationCache (strim n.nodeValue) = some tr → tr ≠ strim n.nodeValue →
      applyText translationCache n = ({ n with nodeValue := tr }, true)) ∧
    (cacheGet translationCache (strim n.nodeValue) = none ∨
        cacheGet translationCache (strim n.nodeValue) = some (strim n.nodeValue) →
      applyText translationCache n = (n, false)) ∧
    (cacheGet translationCache a.text = some tr → tr ≠ a.text →
      applyAttr translationCache a = (setAttrEl a.element a.attrName tr, true)) ∧
    (cacheGet translationCache a.text = none ∨
        cacheGet translationCache a.text = some a.text →
      applyAttr translationCache a = (a.element, false)) ∧
    (n ∈ nodes → (applyText translationCache n).2 = true →
      n.id ∈ (applyTextPass translationCache nodes).2) ∧
    (n ∈ collectTextNodes root translatedNodes → memN n.id newIds = false →
      n ∈ collectTextNodes root (translatedNodes ++ newIds)) := by
  refine ⟨?_, ?_, ?_, ?_, ?_, ?_⟩
  · intro hget hne
    have htr : tr ≠ "" := cacheGet_valsOk _ _ _ hvals hget
    have hcond : (tr != "" && tr != strim n.nodeValue) = true := by
      rw [Bool.and_eq_true]
      exact ⟨bne_iff_ne.mpr htr, bne_iff_ne.mpr hne⟩
    simp only [applyText]
    rw [hget]
    show (if (tr != "" && tr != strim n.nodeValue) = true
        then ({ n with nodeValue := tr }, true) else (n, false)) =
      ({ n with nodeValue := tr }, true)
    rw [if_pos hcond]
  · intro hcase
    rcases hcase with hget | hget
    · simp only [applyText]
      rw [hget]
    · simp only [applyText]
      rw [hget]
      show (if (strim n.nodeValue != "" && strim n.nodeValue != strim n.nodeValue) = true
          then ({ n with nodeValue := strim n.nodeValue }, true) else (n, false)) = (n, false)
      rw [if_neg]
      intro hco
      rw [Bool.and_eq_true] at hco
      exact absurd rfl (bne_iff_ne.mp hco.2)
  · intro hget hne
    have htr : tr ≠ "" := cacheGet_valsOk _ _ _ hvals hget
    have hcond : (tr != "" && tr != a.text) = true := by
      rw [Bool.and_eq_true]
      exact ⟨bne_iff_ne.mpr htr, bne_iff_ne.mpr hne⟩
    simp only [applyAttr]
    rw [hget]
    show (if (tr != "" && tr != a.text) = true
        then (setAttrEl a.element a.attrName tr, true) else (a.element, false)) =
      (setAttrEl a.element a.attrName tr, true)
    rw [if_pos hcond]
  · intro hcase
    rcases hcase with hget | hget
    · simp only [applyAttr]
      rw [hget]
    · simp only [applyAttr]
      rw [hget]
      show (if (a.text != "" && a.text != a.text) = true
          then (setAttrEl a.element a.attrName a.text, true) else (a.element, false)) =
        (a.element, false)
      rw [if_neg]
      intro hco
      rw [Bool.and_eq_true] at hco
      exact absurd rfl (bne_iff_ne.mp hco.2)
  · intro hmem hflag
    simp only [applyTextPass]
    exact List.mem_map.mpr ⟨n, List.mem_filter.mpr ⟨hmem, hflag⟩, rfl⟩
  · intro hmem hnew
    have hsplit := List.mem_filter.mp hmem
    refine List.mem_filter.mpr ⟨hsplit.1, ?_⟩
    have hp := hsplit.2
    rw [Bool.and_eq_true] at hp
    rw [Bool.and_eq_true]
    refine ⟨?_, hp.2⟩
    have h1 : memN n.id translatedNodes = false := by simpa using hp.1
    rw [memN_append, h1, hnew]
    rfl

/-- C4 witness, the claim's own scenario: after merging the batch
response Hello → Bonjour for batch ["Hello", "World"], the "Hello" node
becomes "Bonjour" and is marked; the "World" node is returned
byte-identical and unmarked, and it is still extracted by a later pass
over a subtree containing it once only the "Hello" node's id was
marked. -/
theorem C4_apply_phase_witness :
    applyText (mergeTranslations [] [{ original := some "Hello", translated := some "Bonjour" }])
      { id := 1, nodeValue := "Hello",
        parent := some { tag := "P", noTranslate := false, rectTop := 0 } } =
      ({ id := 1, nodeValue := "Bonjour",
         parent := some { tag := "P", noTranslate := false, rectTop := 0 } }, true) ∧
    applyText (mergeTranslations [] [{ original := some "Hello", translated := some "Bonjour" }])
      { id := 2, nodeValue := "World",
        parent := some { tag := "P", noTranslate := false, rectTop := 0 } } =
      ({ id := 2, nodeValue := "World",
         parent := some { tag := "P", noTranslate := false, rectTop := 0 } }, false) ∧
    ({ id := 2, nodeValue := "World",
       parent := some { tag := "P", noTranslate := false, rectTop := 0 } } : TextNode) ∈
      collectTextNodes
        { texts := [{ id := 2, nodeValue := "World",
                      parent := some { tag := "P", noTranslate := false, rectTop := 0 } }],
          elements := [], isHead := false } ([] ++ [1]) := by
  have hvals : cacheValsOk
      (mergeTranslations [] [{ original := some "Hello", translated := some "Bonjour" }]) := by
    unfold cacheValsOk
    decide
  refine ⟨?_, ?_, ?_⟩
  · exact (C4_apply_phase _ hvals
      { id := 1, nodeValue := "Hello",
        parent := some { tag := "P", noTranslate := false, rectTop := 0 } }
      { element := { id := 0, tag := "", attrs := [], rectTop := 0 }, attrName := "", text := "" }
      "Bonjour" { texts := [], elements := [], isHead := false } [] [] []).1
      (by decide) (by decide)
  · exact (C4_apply_phase _ hvals
      { id := 2, nodeValue := "World",
        parent := some { tag := "P", noTranslate := false, rectTop := 0 } }
      { element := { id := 0, tag := "", attrs := [], rectTop := 0 }, attrName := "", text := "" }
      "Bonjour" { texts := [], elements := [], isHead := false } [] [] []).2.1
      (Or.inl (by decide))
  · exact (C4_apply_phase _ hvals
      { id := 2, nodeValue := "World",
        parent := some { tag := "P", noTranslate := false, rectTop := 0 } }
      { element := { id := 0, tag := "", attrs := [], rectTop := 0 }, attrName := "", text := "" }
      "Bonjour"
      { texts := [{ id := 2, nodeValue := "World",
                    parent := some { tag := "P", noTranslate := false, rectTop := 0 } }],
        elements := [], isHead := false } [] [1] []).2.2.2.2.2
      (by decide) (by decide)

/-- Matching heads of a successful `begWith` test are equal. -/
theorem begWith_head_eq (p c : Char) (ps cs : List Char)
    (h : begWith (p :: ps) (c :: cs) = true) : p = c := by
  simp only [begWith, Bool.and_eq_true] at h
  exact eq_of_beq h.1

/-- A link accepted by the already-prefixed guard starts with `/`. -/
theorem guard_slash (lang R : String)
    (hguard : (begWithS R (("/" ++ lang) ++ "/") || R == "/" ++ lang) = true) :
    ∃ t, R.data = '/' :: t := by
  rw [Bool.or_eq_true] at hguard
  rcases hguard with h | h
  · cases hR : R.data with
    | nil =>
      exfalso
      have h' : begWith ('/' :: (lang.data ++ ['/'])) R.data = true := h
      rw [hR] at h'
      exact absurd h' (by simp [begWith])
    | cons c cs =>
      have h' : begWith ('/' :: (lang.data ++ ['/'])) (c :: cs) = true := by
        have h0 : begWith ('/' :: (lang.data ++ ['/'])) R.data = true := h
        rwa [hR] at h0
      have hc : ('/' : Char) = c := begWith_head_eq _ _ _ _ h'
      exact ⟨cs, by rw [hc]⟩
  · have h' : R = "/" ++ lang := eq_of_beq h
    exact ⟨lang.data, by rw [h']; rfl⟩

/-- A link that already carries the locale prefix is left unchanged by
the rewrite (the source's early guard). -/
theorem rewriteHref_prefixed_fix (lang R : String)
    (hguard : (begWithS R (("/" ++ lang) ++ "/") || R == "/" ++ lang) = true)
    (t : List Char) (ht : R.data = '/' :: t) :
    rewriteHref lang R = R := by
  obtain ⟨h1, h2, h3, h4, h5⟩ := externalHref_slash R t ht
  simp only [rewriteHref]
  rw [if_neg (slash_ne_empty R t ht)]
  rw [if_neg (by simp [h1, h2])]
  rw [if_neg (by simp [h3])]
  rw [if_neg (by simp [h4, h5])]
  rw [if_pos hguard]

/-- Result shape of one run of the rewrite on an internal relative link
that is not yet prefixed: one branch per source case. -/
theorem rewriteHref_result (lang href : String) (h0 : ¬href = "")
    (hx : externalHref href = false)
    (hg : (begWithS href (("/" ++ lang) ++ "/") || href == "/" ++ lang) = false) :
    ((href == "/") = true ∧ rewriteHref lang href = "/" ++ lang) ∨
    ((href == "/") = false ∧ begWithS href "/" = true ∧
      rewriteHref lang href = ("/" ++ lang) ++ href) ∨
    ((href == "/") = false ∧ begWithS href "/" = false ∧ begWithS href "./" = true ∧
      rewriteHref lang href = (("/" ++ lang) ++ "/") ++ sdrop href 2) ∨
    ((href == "/") = false ∧ begWithS href "/" = false ∧ begWithS href "./" = false ∧
      rewriteHref lang href = (("/" ++ lang) ++ "/") ++ href) := by
  have hx' := hx
  simp only [externalHref, Bool.or_eq_false_iff] at hx'
  obtain ⟨⟨⟨⟨ha, hb⟩, hc⟩, hd⟩, he⟩ := hx'
  simp only [rewriteHref]
  rw [if_neg h0]
  rw [if_neg (by simp [ha, hb])]
  rw [if_neg (by simp [hc])]
  rw [if_neg (by simp [hd, he])]
  rw [if_neg (by simp [hg])]
  by_cases h6 : (href == "/") = true
  · rw [if_pos h6]
    exact Or.inl ⟨h6, rfl⟩
  · rw [if_neg h6]
    have h6' : (href == "/") = false := by simpa using h6
    by_cases h7 : begWithS href "/" = true
    · rw [if_pos h7]
      exact Or.inr (Or.inl ⟨h6', h7, rfl⟩)
    · rw [if_neg h7]
      have h7' : begWithS href "/" = false := by simpa using h7
      by_cases h8 : begWithS href "./" = true
      · rw [if_pos h8]
        exact Or.inr (Or.inr (Or.inl ⟨h6', h7', h8, rfl⟩))
      · rw [if_neg h8]
        have h8' : begWithS href "./" = false := by simpa using h8
        exact Or.inr (Or.inr (Or.inr ⟨h6', h7', h8', rfl⟩))

/-- C7 counterexample: the internal relative link "fr/about" (no
protocol, fragment, mailto or tel prefix) is rewritten by one run to
"/fr/fr/about", which begins with the locale prefix /fr twice — the
exactly-once part of the claim fails on it. -/
theorem C7_counterexample :
    externalHref "fr/about" = false ∧ "fr/about" ≠ "" ∧
    rewriteHref "fr" "fr/about" = "/fr/fr/about" ∧
    langSegOnce "fr".data (rewriteHref "fr" "fr/about").data = false := by decide

/-- C7 amended: one run of the per-link rewrite leaves external,
fragment, mailto and tel links byte-identical; it is idempotent on every
href (a second run changes nothing); every non-empty internal relative
link begins with the locale prefix /lang after one run; a link the
guard already recognises as prefixed is untouched; and the result
carries the prefix exactly once provided the link's canonical slash-path
did not itself already begin with the prefix segment (the counterexample
"fr/about" shows exactly-once fails without that proviso). -/
theorem C7_link_rewrite (lang href : String) :
    (externalHref href = true → rewriteHref lang href = href) ∧
    rewriteHref lang (rewriteHref lang href) = rewriteHref lang href ∧
    (href ≠ "" → externalHref href = false →
      hasLangSeg lang.data (rewriteHref lang href).data = true) ∧
    ((begWithS href (("/" ++ lang) ++ "/") || href == "/" ++ lang) = true →
      externalHref href = false → href ≠ "" → rewriteHref lang href = href) ∧
    ((begWithS href (("/" ++ lang) ++ "/") || href == "/" ++ lang) = false →
      externalHref href = false → href ≠ "" →
      hasLangSeg lang.data (pathForm href).data = false →
      langSegOnce lang.data (rewriteHref lang href).data = true) := by
  have hE : externalHref href = true → rewriteHref lang href = href := by
    intro hx
    have h0 : ¬ href = "" := by
      intro h
      rw [h] at hx
      exact absurd hx (by decide)
    simp only [rewriteHref]
    rw [if_neg h0]
    by_cases h2 : (begWithS href "http://" || begWithS href "https://") = true
    · rw [if_pos h2]
    · rw [if_neg h2]
      by_cases h3 : begWithS href "#" = true
      · rw [if_pos h3]
      · rw [if_neg h3]
        by_cases h4 : (begWithS href "mailto:" || begWithS href "tel:") = true
        · rw [if_pos h4]
        · exfalso
          simp only [externalHref, Bool.or_eq_true] at hx
          rcases hx with ((((ha | hb) | hc) | hd) | he)
          · exact h2 (by rw [Bool.or_eq_true]; exact Or.inl ha)
          · exact h2 (by rw [Bool.or_eq_true]; exact Or.inr hb)
          · exact h3 hc
          · exact h4 (by rw [Bool.or_eq_true]; exact Or.inl hd)
          · exact h4 (by rw [Bool.or_eq_true]; exact Or.inr he)
  have hskip : (begWithS href (("/" ++ lang) ++ "/") || href == "/" ++ lang) = true →
      externalHref href = false → href ≠ "" → rewriteHref lang href = href := by
    intro hg _ _
    obtain ⟨t, ht⟩ := guard_slash lang href hg
    exact rewriteHref_prefixed_fix lang href hg t ht
  have hempty : rewriteHref lang "" = "" := by
    simp only [rewriteHref]
    rw [if_pos trivial]
  have hidem : rewriteHref lang (rewriteHref lang href) = rewriteHref lang href := by
    by_cases h0 : href = ""
    · subst h0
      rw [hempty, hempty]
    · by_cases hx : externalHref href = true
      · have h := hE hx
        rw [h]
        exact h
      · have hx' : externalHref href = false := Bool.eq_false_iff.mpr hx
        by_cases hg : (begWithS href (("/" ++ lang) ++ "/") || href == "/" ++ lang) = true
        · have h := hskip hg hx' h0
          rw [h]
          exact h
        · have hg' : (begWithS href (("/" ++ lang) ++ "/") || href == "/" ++ lang) = false :=
            Bool.eq_false_iff.mpr hg
          rcases rewriteHref_result lang href h0 hx' hg' with
            ⟨h6, heq⟩ | ⟨h6, h7, heq⟩ | ⟨h6, h7, h8, heq⟩ | ⟨h6, h7, h8, heq⟩
          · rw [heq]
            refine rewriteHref_prefixed_fix lang _ ?_ lang.data rfl
            rw [Bool.or_eq_true]
            right
            exact beq_self_eq_true ("/" ++ lang)
          · rw [heq]
            refine rewriteHref_prefixed_fix lang _ ?_ (lang.data ++ href.data) rfl
            rw [Bool.or_eq_true]
            left
            show begWith ('/' :: (lang.data ++ ['/'])) ('/' :: (lang.data ++ href.data)) = true
            rw [begWith_cons_cancel]
            exact h7
          · rw [heq]
            refine rewriteHref_prefixed_fix lang _ ?_
              ((lang.data ++ ['/']) ++ href.data.drop 2) rfl
            rw [Bool.or_eq_true]
            left
            exact begWith_refl_append ('/' :: (lang.data ++ ['/'])) (href.data.drop 2)
          · rw [heq]
            refine rewriteHref_prefixed_fix lang _ ?_
              ((lang.data ++ ['/']) ++ href.data) rfl
            rw [Bool.or_eq_true]
            left
            exact begWith_refl_append ('/' :: (lang.data ++ ['/'])) href.data
  have hseg : href ≠ "" → externalHref href = false →
      hasLangSeg lang.data (rewriteHref lang href).data = true := by
    intro h0 hx
    by_cases hg : (begWithS href (("/" ++ lang) ++ "/") || href == "/" ++ lang) = true
    · rw [hskip hg hx h0]
      simp only [hasLangSeg]
      rw [Bool.or_eq_true] at hg ⊢
      rcases hg with h | h
      · exact Or.inl h
      · right
        have h' : href = "/" ++ lang := eq_of_beq h
        rw [h']
        exact beq_self_eq_true ('/' :: lang.data)
    · have hg' : (begWithS href (("/" ++ lang) ++ "/") || href == "/" ++ lang) = false :=
        Bool.eq_false_iff.mpr hg
      rcases rewriteHref_result lang href h0 hx hg' with
        ⟨h6, heq⟩ | ⟨h6, h7, heq⟩ | ⟨h6, h7, h8, heq⟩ | ⟨h6, h7, h8, heq⟩
      · rw [heq]
        simp only [hasLangSeg]
        rw [Bool.or_eq_true]
        right
        exact beq_self_eq_true ('/' :: lang.data)
      · rw [heq]
        simp only [hasLangSeg]
        rw [Bool.or_eq_true]
        left
        show begWith ('/' :: (lang.data ++ ['/'])) ('/' :: (lang.data ++ href.data)) = true
        rw [begWith_cons_cancel]
        exact h7
      · rw [heq]
        simp only [hasLangSeg]
        rw [Bool.or_eq_true]
        left
        exact begWith_refl_append ('/' :: (lang.data ++ ['/'])) (href.data.drop 2)
      · rw [heq]
        simp only [hasLangSeg]
        rw [Bool.or_eq_true]
        left
        exact begWith_refl_append ('/' :: (lang.data ++ ['/'])) href.data
  have honce : (begWithS href (("/" ++ lang) ++ "/") || href == "/" ++ lang) = false →
      externalHref href = false → href ≠ "" →
      hasLangSeg lang.data (pathForm href).data = false →
      langSegOnce lang.data (rewriteHref lang href).data = true := by
    intro hg hx h0 hpf
    rcases rewriteHref_result lang href h0 hx hg with
      ⟨h6, heq⟩ | ⟨h6, h7, heq⟩ | ⟨h6, h7, h8, heq⟩ | ⟨h6, h7, h8, heq⟩
    · rw [heq]
      simp only [langSegOnce]
      have hA : hasLangSeg lang.data ("/" ++ lang).data = true := by
        simp only [hasLangSeg]
        rw [Bool.or_eq_true]
        right
        exact beq_self_eq_true ('/' :: lang.data)
      have hdrop : (("/" ++ lang).data).drop (lang.data.length + 1) = ([] : List Char) := by
        show lang.data.drop lang.data.length = []
        exact List.drop_length _
      rw [hA, hdrop, hasLangSeg_nil]
      rfl
    · have hpfeq : pathForm href = href := by
        simp only [pathForm]
        rw [if_neg (by simp [h6]), if_pos h7]
      rw [hpfeq] at hpf
      rw [heq]
      simp only [langSegOnce]
      have hA : hasLangSeg lang.data ((("/" ++ lang) ++ href).data) = true := by
        simp only [hasLangSeg]
        rw [Bool.or_eq_true]
        left
        show begWith ('/' :: (lang.data ++ ['/'])) ('/' :: (lang.data ++ href.data)) = true
        rw [begWith_cons_cancel]
        exact h7
      have hdrop : ((("/" ++ lang) ++ href).data).drop (lang.data.length + 1) = href.data := by
        show (lang.data ++ href.data).drop lang.data.length = href.data
        exact List.drop_left _ _
      rw [hA, hdrop, hpf]
      rfl
    · have hpfeq : pathForm href = "/" ++ sdrop href 2 := by
        simp only [pathForm]
        rw [if_neg (by simp [h6]), if_neg (by simp [h7]), if_pos h8]
      rw [hpfeq] at hpf
      rw [heq]
      simp only [langSegOnce]
      have hA : hasLangSeg lang.data (((("/" ++ lang) ++ "/") ++ sdrop href 2).data) = true := by
        simp only [hasLangSeg]
        rw [Bool.or_eq_true]
        left
        exact begWith_refl_append ('/' :: (lang.data ++ ['/'])) (href.data.drop 2)
      have hdrop : (((("/" ++ lang) ++ "/") ++ sdrop href 2).data).drop (lang.data.length + 1) =
          '/' :: href.data.drop 2 := by
        show ((lang.data ++ ['/']) ++ href.data.drop 2).drop lang.data.length =
          '/' :: href.data.drop 2
        rw [List.append_assoc]
        exact List.drop_left _ _
      have hpf' : hasLangSeg lang.data ('/' :: href.data.drop 2) = false := hpf
      rw [hA, hdrop, hpf']
      rfl
    · have hpfeq : pathForm href = "/" ++ href := by
        simp only [pathForm]
        rw [if_neg (by simp [h6]), if_neg (by simp [h7]), if_neg (by simp [h8])]
      rw [hpfeq] at hpf
      rw [heq]
      simp only [langSegOnce]
      have hA : hasLangSeg lang.data (((("/" ++ lang) ++ "/") ++ href).data) = true := by
        simp only [hasLangSeg]
        rw [Bool.or_eq_true]
        left
        exact begWith_refl_append ('/' :: (lang.data ++ ['/'])) href.data
      have hdrop : (((("/" ++ lang) ++ "/") ++ href).data).drop (lang.data.length + 1) =
          '/' :: href.data := by
        show ((lang.data ++ ['/']) ++ href.data).drop lang.data.length = '/' :: href.data
        rw [List.append_assoc]
        exact List.drop_left _ _
      have hpf' : hasLangSeg lang.data ('/' :: href.data) = false := hpf
      rw [hA, hdrop, hpf']
      rfl
  exact ⟨hE, hidem, hseg, hskip, honce⟩

/-- C7 witness: the root-relative link "/about" under lang "fr" is
rewritten to a link carrying the prefix exactly once, the rewrite is
idempotent on it, and an external link is untouched. -/
theorem C7_link_rewrite_witness :
    langSegOnce "fr".data (rewriteHref "fr" "/about").data = true ∧
    rewriteHref "fr" (rewriteHref "fr" "/about") = rewriteHref "fr" "/about" ∧
    rewriteHref "fr" "https://example.com/x" = "https://example.com/x" := by
  refine ⟨?_, ?_, ?_⟩
  · exact (C7_link_rewrite "fr" "/about").2.2.2.2 (by decide) (by decide) (by decide) (by decide)
  · exact (C7_link_rewrite "fr" "/about").2.1
  · exact (C7_link_rewrite "fr" "https://example.com/x").1 (by decide)

set_option maxRecDepth 100000 in
set_option maxHeartbeats 2000000 in
/-- C9: for ProjectConfig (default en, targets [fr, de]) and request
path /fr/about, the router strips the prefix (lang fr, canonical path
/about); on a successful HTML origin response, the served response
carries Content-Language: fr, its body contains an hreflang="de"
alternate link whose href is the configured origin followed by
/de/about, and it contains the language switcher whose language options
are exactly the three options en, fr and de (languageOptions builds
precisely those three; the select additionally holds the fixed
placeholder option). -/
theorem C9_scenario :
    let projectConfig : ProjectConfig :=
      { default_language := some "en", target_languages := some ["fr", "de"] }
    let origin : WResponse :=
      { status := 200, ok := true, headers := [("Content-Type", "text/html")],
        body := "<html><head><title>Hi</title></head><body><p>Hello</p></body></html>" }
    let served := handleTranslatedCore origin "fr" "/about" "key" projectConfig []
      "https://example.com"
    routeDecision projectConfig "/fr/about" = some ("fr", "/about") ∧
    getHeader served.headers "Content-Language" = some "fr" ∧
    hasSub "<link rel=\"alternate\" hreflang=\"de\" href=\"https://example.com/de/about\" />".data
      served.body.data = true ∧
    hasSub "<select id=\"altified-lang-select\">".data served.body.data = true ∧
    languageOptions projectConfig [] =
      "<option value=\"en\">EN</option><option value=\"fr\">FR</option><option value=\"de\">DE</option>" ∧
    hasSub "<option value=\"en\">EN</option>".data served.body.data = true ∧
    hasSub "<option value=\"fr\">FR</option>".data served.body.data = true ∧
    hasSub "<option value=\"de\">DE</option>".data served.body.data = true := by
  decide
